import Mathlib

/- Shallow embedding of the SOH Watch inventory rule engine
(`inventory_utils.py` and `inventory_health_app.py`).

Numeric cell values are modelled as `Option ℚ`: `none` stands for the
float NaN sentinel that `pd.to_numeric(..., errors='coerce')` produces
for missing or malformed cells, `some q` for an ordinary numeric value.
Dates are modelled as rational day numbers, so one week is 7 units.
Statuses and coverage marks are the exact strings the code returns. -/

/-- Status string for a row whose SOH, Min Qty or Max Qty is missing. -/
def MISSING_SOH : String := "❓ Missing SOH"

/-- Status string for a row whose on-hand quantity is below Min Qty. -/
def CRITICAL_BELOW_MIN : String := "🔴 Critical!!! Below Min Qty"

/-- Status string for a row whose on-hand quantity is below the reorder threshold. -/
def REORDER_LEVEL : String := "🟠 Reorder Level"

/-- Status string for a row whose on-hand quantity exceeds Max Qty. -/
def OVERSTOCKED : String := "🕣 Overstocked"

/-- Status string for a row inside its configured band. -/
def HEALTHY : String := "✅ Healthy"

/-- Embedding of `assess_status` (inventory_utils.py, lines 60-80).
The three arguments are the row's `SOH`, `Min Qty` and `Max Qty` cells. -/
def assess_status (soh mn mx : Option ℚ) : String :=
  match soh with
  | none => "❓ Missing SOH"
  | some s =>
    match mn, mx with
    | some m, some x =>
      if s < m then "🔴 Critical!!! Below Min Qty"
      else if s < x - (x - m) / 3 then "🟠 Reorder Level"
      else if s > x then "🕣 Overstocked"
      else "✅ Healthy"
    | _, _ => "❓ Missing SOH"

/-- Written from the specification's words (spec 4.1): absent on-hand, or
absent min or max, yields `MISSING_SOH`; otherwise, with
`reorder_threshold = max − (max − min) / 3`, on-hand below min is critical,
else below the threshold is reorder level, else above max is overstocked,
else healthy. -/
def assess_status_spec (soh mn mx : Option ℚ) : String :=
  match soh, mn, mx with
  | some s, some m, some x =>
    let threshold := x - (x - m) / 3
    if s < m then CRITICAL_BELOW_MIN
    else if s < threshold then REORDER_LEVEL
    else if s > x then OVERSTOCKED
    else HEALTHY
  | _, _, _ => MISSING_SOH

/-- Claim C2, counterexample: with SOH 0 and Min Qty 10 both present and
0 < 10, but Max Qty absent, `assess_status` returns `MISSING_SOH`, not
`CRITICAL_BELOW_MIN` — so the claim as stated (no hypothesis on max) fails. -/
theorem assess_status_requires_max :
    (0 : ℚ) < 10 ∧ assess_status (some 0) (some 10) none ≠ CRITICAL_BELOW_MIN := by
  constructor
  · norm_num
  · intro h
    exact absurd h (by decide)

/-- Claim C2, amended: for every row in which on-hand, min and max are all
present and on-hand < min, `assess_status` returns `CRITICAL_BELOW_MIN`. -/
theorem below_min_critical (s m x : ℚ) (h : s < m) :
    assess_status (some s) (some m) (some x) = CRITICAL_BELOW_MIN := by
  simp only [assess_status, if_pos h]
  rfl

/-- Witness for the amended claim C2 at SOH 30, Min 50, Max 200. -/
theorem below_min_critical_witness :
    assess_status (some 30) (some 50) (some 200) = CRITICAL_BELOW_MIN :=
  below_min_critical 30 50 200 (by norm_num)

/-- Claim C3: `assess_status` agrees with the specification's fixed-order
rule on every combination of present and absent inputs, and its result is
always exactly one of the five enumerated statuses (the function is total,
so no exception is raised for any input). -/
theorem assess_status_total_correct (soh mn mx : Option ℚ) :
    assess_status soh mn mx = assess_status_spec soh mn mx ∧
    (assess_status soh mn mx = MISSING_SOH ∨
     assess_status soh mn mx = CRITICAL_BELOW_MIN ∨
     assess_status soh mn mx = REORDER_LEVEL ∨
     assess_status soh mn mx = OVERSTOCKED ∨
     assess_status soh mn mx = HEALTHY) := by
  constructor
  · cases soh with
    | none => rfl
    | some s =>
      cases mn with
      | none => cases mx <;> rfl
      | some m => cases mx <;> rfl
  · cases soh with
    | none => exact Or.inl rfl
    | some s =>
      cases mn with
      | none => cases mx <;> exact Or.inl rfl
      | some m =>
        cases mx with
        | none => exact Or.inl rfl
        | some x =>
          simp only [assess_status]
          split_ifs
          · exact Or.inr (Or.inl rfl)
          · exact Or.inr (Or.inr (Or.inl rfl))
          · exact Or.inr (Or.inr (Or.inr (Or.inl rfl)))
          · exact Or.inr (Or.inr (Or.inr (Or.inr rfl)))

/-- Truncation toward zero, the behaviour of Python's `int()` on a float. -/
def int_trunc (q : ℚ) : ℤ :=
  if 0 ≤ q then ⌊q⌋ else ⌈q⌉

/-- Embedding of the minor-order-multiple rounding step of `suggest_reorder`
(inventory_utils.py, lines 97-98): when the multiple is present and
positive, `base` is replaced by `np.ceil(base / mult) * mult`. -/
def round_to_multiple (base : ℚ) (mult : Option ℚ) : ℚ :=
  match mult with
  | some mu => if 0 < mu then (⌈base / mu⌉ : ℚ) * mu else base
  | none => base

/-- Embedding of `suggest_reorder` (inventory_utils.py, lines 82-100).
The arguments are the row's `SOH`, `Min Qty`, `Max Qty`, `MOQ` and
`Minor Order Multiple` cells; the result models the `Optional[int]`. -/
def suggest_reorder (soh mn mx moq mult : Option ℚ) : Option ℤ :=
  match soh, mn, mx, moq with
  | some s, some m, some x, some q =>
    if s < x - (x - m) / 3 then
      some (int_trunc (round_to_multiple (max q (m - s)) mult))
    else none
  | _, _, _, _ => none

/-- Written from the specification's words (spec 4.2): absent on-hand, min,
max or minimum-order-qty gives no suggestion; on-hand at or above the
reorder threshold gives no suggestion; otherwise
`base = max(minimum_order_qty, min − on_hand)` is rounded up to the nearest
positive minor-order-multiple when one is present, then truncated to an
integer. -/
def suggest_reorder_spec (soh mn mx moq mult : Option ℚ) : Option ℤ :=
  match soh, mn, mx, moq with
  | some s, some m, some x, some q =>
    let threshold := x - (x - m) / 3
    if threshold ≤ s then none
    else some (int_trunc (round_to_multiple (max q (m - s)) mult))
  | _, _, _, _ => none

/-- Truncation toward zero is the identity on integer values. -/
theorem int_trunc_intCast (z : ℤ) : int_trunc ((z : ℤ) : ℚ) = z := by
  unfold int_trunc
  split_ifs with h
  · exact Int.floor_intCast z
  · exact Int.ceil_intCast z

/-- Unfolding of `suggest_reorder` when all four required cells are present
and on-hand is strictly below the reorder threshold. -/
theorem suggest_reorder_pos_branch (s m x q : ℚ) (mult : Option ℚ)
    (h : s < x - (x - m) / 3) :
    suggest_reorder (some s) (some m) (some x) (some q) mult =
      some (int_trunc (round_to_multiple (max q (m - s)) mult)) := by
  show (if s < x - (x - m) / 3 then
      some (int_trunc (round_to_multiple (max q (m - s)) mult)) else none) = _
  rw [if_pos h]

/-- Unfolding of `suggest_reorder` when all four required cells are present
and on-hand is at or above the reorder threshold. -/
theorem suggest_reorder_neg_branch (s m x q : ℚ) (mult : Option ℚ)
    (h : ¬ s < x - (x - m) / 3) :
    suggest_reorder (some s) (some m) (some x) (some q) mult = none := by
  show (if s < x - (x - m) / 3 then
      some (int_trunc (round_to_multiple (max q (m - s)) mult)) else none) = none
  rw [if_neg h]

/-- Claim C4, counterexample: with MOQ −5 the suggestion is the negative
integer −5, and with MOQ 11 and fractional minor order multiple 5/2 the
suggestion 12 (from ceil(11 / 2.5) · 2.5 = 12.5 truncated by `int()`) is not
divisible by the multiple — so neither the non-negativity nor the
divisibility part of the claim holds as stated. -/
theorem suggest_reorder_claim_false :
    suggest_reorder (some 20) (some 10) (some 100) (some (-5)) none = some (-5) ∧
    suggest_reorder (some 0) (some 10) (some 30) (some 11) (some (5 / 2)) = some 12 ∧
    ∀ z : ℤ, (z : ℚ) * (5 / 2) ≠ 12 := by
  refine ⟨?_, ?_, ?_⟩
  · rw [suggest_reorder_pos_branch 20 10 100 (-5) none (by norm_num)]
    have hmax : max (-5 : ℚ) (10 - 20) = -5 := by norm_num
    rw [hmax]
    show some (int_trunc (-5)) = some (-5)
    have ht : int_trunc (-5) = -5 := by
      unfold int_trunc
      rw [if_neg (by norm_num), show ((-5 : ℚ)) = ((-5 : ℤ) : ℚ) by norm_num,
        Int.ceil_intCast]
    rw [ht]
  · rw [suggest_reorder_pos_branch 0 10 30 11 (some (5 / 2)) (by norm_num)]
    have hmax : max (11 : ℚ) (10 - 0) = 11 := by norm_num
    rw [hmax]
    have hr : round_to_multiple 11 (some (5 / 2)) = 25 / 2 := by
      simp only [round_to_multiple]
      rw [if_pos (by norm_num : (0 : ℚ) < 5 / 2)]
      have hdiv : (11 : ℚ) / (5 / 2) = 22 / 5 := by norm_num
      have hceil : (⌈(22 : ℚ) / 5⌉ : ℤ) = 5 := by
        rw [Int.ceil_eq_iff] <;> norm_num
      rw [hdiv, hceil]
      norm_num
    rw [hr]
    have ht : int_trunc (25 / 2) = 12 := by
      unfold int_trunc
      rw [if_pos (by norm_num)]
      rw [Int.floor_eq_iff] <;> norm_num
    rw [ht]
  · intro z h
    have h5 : ((z * 5 : ℤ) : ℚ) = ((24 : ℤ) : ℚ) := by push_cast; linarith
    have : z * 5 = 24 := by exact_mod_cast h5
    omega

/-- Claim C4, amended: every suggestion returned by `suggest_reorder` is an
integer; it is non-negative whenever the row's MOQ is non-negative; and
whenever the minor-order-multiple is a positive integer, the returned
suggestion is divisible by it. -/
theorem suggest_reorder_sign_divisibility
    (soh mn mx moq mult : Option ℚ) (k : ℤ)
    (h : suggest_reorder soh mn mx moq mult = some k) :
    (∀ q, moq = some q → 0 ≤ q → 0 ≤ k) ∧
    (∀ n : ℕ, 0 < n → mult = some ((n : ℕ) : ℚ) → (n : ℤ) ∣ k) := by
  rcases soh with _ | s
  · cases mn <;> cases mx <;> cases moq <;> exact Option.noConfusion h
  rcases mn with _ | m
  · cases mx <;> cases moq <;> exact Option.noConfusion h
  rcases mx with _ | x
  · cases moq <;> exact Option.noConfusion h
  rcases moq with _ | q
  · exact Option.noConfusion h
  by_cases hlt : s < x - (x - m) / 3
  · rw [suggest_reorder_pos_branch s m x q mult hlt] at h
    have hk := Option.some_inj.mp h
    subst hk
    constructor
    · rintro q' hq' hq0
      injection hq' with hqq
      subst hqq
      have hbase : 0 ≤ max q (m - s) := le_trans hq0 (le_max_left _ _)
      have hrounded : 0 ≤ round_to_multiple (max q (m - s)) mult := by
        cases mult with
        | none => exact hbase
        | some mu =>
          simp only [round_to_multiple]
          by_cases hmu : 0 < mu
          · rw [if_pos hmu]
            have hdiv : 0 ≤ max q (m - s) / mu := div_nonneg hbase (le_of_lt hmu)
            have hceil : (0 : ℤ) ≤ ⌈max q (m - s) / mu⌉ := Int.ceil_nonneg hdiv
            have hcq : (0 : ℚ) ≤ (⌈max q (m - s) / mu⌉ : ℚ) := by exact_mod_cast hceil
            exact mul_nonneg hcq (le_of_lt hmu)
          · rw [if_neg hmu]
            exact hbase
      unfold int_trunc
      rw [if_pos hrounded]
      exact Int.floor_nonneg.mpr hrounded
    · rintro n hn hmult
      subst hmult
      have hnq : (0 : ℚ) < ((n : ℕ) : ℚ) := by exact_mod_cast hn
      have hval : round_to_multiple (max q (m - s)) (some ((n : ℕ) : ℚ)) =
          ((⌈max q (m - s) / ((n : ℕ) : ℚ)⌉ * (n : ℤ) : ℤ) : ℚ) := by
        simp only [round_to_multiple]
        rw [if_pos hnq]
        push_cast
        ring
      rw [hval, int_trunc_intCast]
      exact dvd_mul_left _ _
  · rw [suggest_reorder_neg_branch s m x q mult hlt] at h
    exact Option.noConfusion h

/-- Witness for the amended claim C4 at SOH 30, Min 50, Max 200, MOQ 10,
minor order multiple 5: the suggestion is 20, which is non-negative and
divisible by 5. -/
theorem suggest_reorder_sign_divisibility_witness :
    (0 : ℤ) ≤ 20 ∧ (5 : ℤ) ∣ 20 := by
  have heval : suggest_reorder (some 30) (some 50) (some 200) (some 10)
      (some ((5 : ℕ) : ℚ)) = some 20 := by
    rw [suggest_reorder_pos_branch 30 50 200 10 _ (by norm_num)]
    have h5 : ((5 : ℕ) : ℚ) = 5 := by norm_num
    have hmax : max (10 : ℚ) (50 - 30) = 20 := by norm_num
    rw [h5, hmax]
    have hr : round_to_multiple 20 (some (5 : ℚ)) = 20 := by
      simp only [round_to_multiple]
      rw [if_pos (by norm_num : (0 : ℚ) < 5),
        show (20 : ℚ) / 5 = ((4 : ℤ) : ℚ) by norm_num, Int.ceil_intCast]
      norm_num
    rw [hr]
    have ht : int_trunc 20 = 20 := by
      unfold int_trunc
      rw [if_pos (by norm_num), show (20 : ℚ) = ((20 : ℤ) : ℚ) by norm_num,
        Int.floor_intCast]
    rw [ht]
  have h := suggest_reorder_sign_divisibility (some 30) (some 50) (some 200)
    (some 10) (some ((5 : ℕ) : ℚ)) 20 heval
  exact ⟨h.1 10 rfl (by norm_num), h.2 5 (by norm_num) rfl⟩

/-- Claim C5: `suggest_reorder` agrees with the specification's rule on
every combination of present and absent inputs. -/
theorem suggest_reorder_spec_correct (soh mn mx moq mult : Option ℚ) :
    suggest_reorder soh mn mx moq mult = suggest_reorder_spec soh mn mx moq mult := by
  rcases soh with _ | s
  · cases mn <;> cases mx <;> cases moq <;> rfl
  rcases mn with _ | m
  · cases mx <;> cases moq <;> rfl
  rcases mx with _ | x
  · cases moq <;> rfl
  rcases moq with _ | q
  · rfl
  have hspec_pos : ∀ (hlt : s < x - (x - m) / 3),
      suggest_reorder_spec (some s) (some m) (some x) (some q) mult =
        some (int_trunc (round_to_multiple (max q (m - s)) mult)) := by
    intro hlt
    show (if x - (x - m) / 3 ≤ s then none
      else some (int_trunc (round_to_multiple (max q (m - s)) mult))) = _
    rw [if_neg (not_le.mpr hlt)]
  have hspec_neg : ∀ (hle : x - (x - m) / 3 ≤ s),
      suggest_reorder_spec (some s) (some m) (some x) (some q) mult = none := by
    intro hle
    show (if x - (x - m) / 3 ≤ s then none
      else some (int_trunc (round_to_multiple (max q (m - s)) mult))) = none
    rw [if_pos hle]
  rcases le_or_lt (x - (x - m) / 3) s with hle | hlt
  · rw [suggest_reorder_neg_branch s m x q mult (not_lt.mpr hle), hspec_neg hle]
  · rw [suggest_reorder_pos_branch s m x q mult hlt, hspec_pos hlt]

/-- Claim C9: whenever `assess_status` reports `MISSING_SOH` (on-hand, min
or max absent), `suggest_reorder` returns no suggestion for the same row. -/
theorem missing_soh_no_reorder (soh mn mx moq mult : Option ℚ)
    (h : assess_status soh mn mx = MISSING_SOH) :
    suggest_reorder soh mn mx moq mult = none := by
  rcases soh with _ | s
  · cases mn <;> cases mx <;> cases moq <;> rfl
  rcases mn with _ | m
  · cases mx <;> cases moq <;> rfl
  rcases mx with _ | x
  · cases moq <;> rfl
  exfalso
  simp only [assess_status] at h
  split_ifs at h <;> exact absurd h (by decide)

/-- Witness for claim C9 at a row with absent SOH. -/
theorem missing_soh_no_reorder_witness :
    suggest_reorder none (some 1) (some 2) (some 3) none = none :=
  missing_soh_no_reorder none (some 1) (some 2) (some 3) none rfl

/-- Result string of the PO mitigation check when either input is absent. -/
def UNKNOWN : String := "N/A"

/-- Result string when the next purchase order arrives by the runout date. -/
def MITIGATES : String := "Yes"

/-- Result string when the next purchase order arrives after the runout date. -/
def DOES_NOT_MITIGATE : String := "No"

/-- Embedding of `mitigates_oos` (inventory_health_app.py, lines 118-128).
Dates are rational day numbers; `today` is the current date already
normalized to midnight, and `pd.Timedelta(weeks=r)` is `7 * r` days. -/
def mitigates_oos (runout arrival : Option ℚ) (today : ℚ) : String :=
  match runout, arrival with
  | some r, some a => if a ≤ today + 7 * r then "Yes" else "No"
  | _, _ => "N/A"

/-- Claim C7: the PO mitigation check returns `UNKNOWN` exactly when the
runout period or the next PO arrival is absent; otherwise it returns
`MITIGATES` when the arrival is at or before `today + 7 * runout` days
(runout weeks after midnight today) and `DOES_NOT_MITIGATE` otherwise.
It is a total function of its two inputs and the current date alone, so it
has no side effect. -/
theorem mitigates_oos_correct (runout arrival : Option ℚ) (today : ℚ) :
    (mitigates_oos runout arrival today = UNKNOWN ↔
      runout = none ∨ arrival = none) ∧
    (∀ r a, runout = some r → arrival = some a →
      mitigates_oos runout arrival today =
        if a ≤ today + 7 * r then MITIGATES else DOES_NOT_MITIGATE) := by
  constructor
  · cases runout with
    | none =>
      cases arrival with
      | none => exact ⟨fun _ => Or.inl rfl, fun _ => rfl⟩
      | some a => exact ⟨fun _ => Or.inl rfl, fun _ => rfl⟩
    | some r =>
      cases arrival with
      | none => exact ⟨fun _ => Or.inr rfl, fun _ => rfl⟩
      | some a =>
        constructor
        · intro h
          exfalso
          have h' : (if a ≤ today + 7 * r then "Yes" else "No") = UNKNOWN := h
          split_ifs at h' <;> exact absurd h' (by decide)
        · rintro (h | h) <;> exact Option.noConfusion h
  · rintro r a rfl rfl
    rfl

/-- Witness for claim C7: runout in 2 weeks, arrival on day 10,
today day 0 — the order arrives in time. -/
theorem mitigates_oos_correct_witness :
    mitigates_oos (some 2) (some 10) 0 = MITIGATES := by
  have h := (mitigates_oos_correct (some 2) (some 10) 0).2 2 10 rfl rfl
  rw [h, if_pos (by norm_num : (10 : ℚ) ≤ 0 + 7 * 2)]

/-- One line of the uploaded purchase-order report, after column coercion:
`sku` is the raw `SKU Code` cell (`none` = missing/NaN), `qty` the
`Order Qty` cell after `pd.to_numeric(..., errors='coerce')`, and `date`
the `Expected Delivery Date` cell after `pd.to_datetime(..., errors='coerce')`
(`none` = NaT, a date that failed to parse), as a rational day number. -/
structure PORow where
  sku : Option String
  qty : Option ℚ
  date : Option ℚ

/-- Embedding of `df_po['SKU Code'].astype(str).str.strip()`
(inventory_health_app.py, line 80): a present cell is stringified and
stripped; a missing cell (float NaN) is stringified to the literal string
"nan". The result column therefore contains no missing values. -/
def astype_str : Option String → String
  | some v => v.trim
  | none => "nan"

/-- The SKU Code column after line 80: every row's `sku` becomes a present
string. -/
def po_clean_sku (r : PORow) : PORow :=
  { r with sku := some (astype_str r.sku) }

/-- Embedding of `df_po.dropna(subset=['SKU Code', 'Expected Delivery Date'])`
(inventory_health_app.py, line 88), applied after the `astype(str)` step:
a row is kept when its SKU Code cell is non-null (which, the column being
string-typed by then, is always the case) and its delivery date parsed. -/
def po_kept (rows : List PORow) : List PORow :=
  (rows.map po_clean_sku).filter (fun r => r.sku.isSome && r.date.isSome)

/-- Embedding of
`df_po.groupby('SKU Code')['Expected Delivery Date'].min().to_dict()`
followed by the `dict.get` lookup (lines 92 and 111-112): the earliest kept
delivery date among the rows grouped under `k`, `none` when no kept row has
that SKU code. -/
def po_next_arrival (rows : List PORow) (k : String) : Option ℚ :=
  (((po_kept rows).filter (fun r => r.sku == some k)).filterMap PORow.date).min?

/-- Embedding of `df_po.groupby('SKU Code')['Order Qty'].sum().to_dict()`
followed by the `dict.get` lookup (lines 93 and 113-114): the sum of the
kept order quantities grouped under `k` (pandas sums over the non-NaN
quantities), `none` when no kept row has that SKU code. -/
def po_next_qty (rows : List PORow) (k : String) : Option ℚ :=
  let g := (po_kept rows).filter (fun r => r.sku == some k)
  if g.isEmpty then none else some ((g.filterMap PORow.qty).sum)

/-- Claim C8, code versus claim at a failing input: a purchase-order line
whose SKU Code is missing, with order quantity 5 and a delivery date that
parses (day 100), is not dropped: because line 80 runs `astype(str)` before
the `dropna` of line 88, the missing SKU Code has already become the
present string "nan", and the line is aggregated under the key "nan"
instead of being discarded. -/
theorem po_index_keeps_nan_sku :
    po_next_arrival [⟨none, some 5, some 100⟩] "nan" = some 100 ∧
    po_next_qty [⟨none, some 5, some 100⟩] "nan" = some 5 := by
  constructor
  · show (([⟨some "nan", some 5, some 100⟩] : List PORow).filter
      (fun r => r.sku == some "nan") |>.filterMap PORow.date).min? = some 100
    norm_num [List.filter, List.filterMap, List.min?]
  · show (if (([⟨some "nan", some 5, some 100⟩] : List PORow).filter
        (fun r => r.sku == some "nan")).isEmpty then none
      else some ((([⟨some "nan", some 5, some 100⟩] : List PORow).filter
        (fun r => r.sku == some "nan")).filterMap PORow.qty).sum) = some 5
    norm_num [List.filter, List.filterMap]

/-- A forecast period is covered when both the remaining stock and the
period's usage are present and the remaining stock is at least the usage
(the `remaining_soh >= usage` branch of `simulate_runout`). -/
def covers (rem u : Option ℚ) : Bool :=
  match rem, u with
  | some r, some v => decide (v ≤ r)
  | _, _ => false

/-- One step of the remaining-stock state of `simulate_runout`: a covered
period subtracts its usage, every other period leaves the stock unchanged. -/
def stepRem (rem u : Option ℚ) : Option ℚ :=
  match rem, u with
  | some r, some v => if v ≤ r then some (r - v) else some r
  | _, _ => rem

/-- Remaining stock obtained by stepping through a list of usages. -/
def remBefore (rem : Option ℚ) (us : List (Option ℚ)) : Option ℚ :=
  us.foldl stepRem rem

/-- Embedding of `simulate_runout` (inventory_utils.py, lines 110-126):
`soh` is the row's `SOH` cell, `us` the forecast-column cells in column
order; the result is the list of per-period marks ("✅" or ""). A period
with a missing usage or missing remaining stock is marked "" and the loop
continues; a period whose usage fits the remaining stock is marked "✅"
and the stock is decremented; otherwise the period is marked "" and the
stock is left unchanged (the loop does not halt). -/
def simulate_runout (soh : Option ℚ) (us : List (Option ℚ)) : List String :=
  match us with
  | [] => []
  | u :: rest =>
    match u, soh with
    | some v, some r =>
      if v ≤ r then "✅" :: simulate_runout (some (r - v)) rest
      else "" :: simulate_runout (some r) rest
    | _, _ => "" :: simulate_runout soh rest

/-- Head unfolding of `simulate_runout` in terms of `covers` and `stepRem`. -/
theorem simulate_runout_cons (soh u : Option ℚ) (rest : List (Option ℚ)) :
    simulate_runout soh (u :: rest) =
      (if covers soh u then "✅" else "") :: simulate_runout (stepRem soh u) rest := by
  cases u with
  | none => cases soh <;> rfl
  | some v =>
    cases soh with
    | none => rfl
    | some r =>
      by_cases h : v ≤ r
      · simp [simulate_runout, covers, stepRem, h]
      · simp [simulate_runout, covers, stepRem, h]

/-- The coverage simulation emits one mark per forecast column. -/
theorem simulate_runout_length (us : List (Option ℚ)) :
    ∀ soh, (simulate_runout soh us).length = us.length := by
  induction us with
  | nil => intro soh; rfl
  | cons u rest ih =>
    intro soh
    rw [simulate_runout_cons]
    simp [ih]

/-- Characterization of each mark of the coverage simulation: period `i` is
marked "✅" exactly when `covers` holds of the stepped remaining stock
before period `i` and the usage at period `i`. -/
theorem simulate_runout_getD (us : List (Option ℚ)) :
    ∀ (soh : Option ℚ) (i : ℕ), i < us.length →
    (simulate_runout soh us).getD i "" =
      if covers (remBefore soh (us.take i)) (us.getD i none) then "✅" else "" := by
  induction us with
  | nil => intro soh i h; exact absurd h (by simp)
  | cons u rest ih =>
    intro soh i h
    rw [simulate_runout_cons]
    cases i with
    | zero => rfl
    | succ k =>
      rw [List.getD_cons_succ]
      rw [ih (stepRem soh u) k (by simp only [List.length_cons] at h; omega)]
      rfl

/-- Claim C1, counterexample: with SOH 10 and usages [20, 5], period 0 is
not covered (20 > 10) yet period 1 is marked covered again (5 ≤ 10): the
simulation resumes after a failed period, so the marking is not monotonic
and the remaining stock is still consulted after the first failure. -/
theorem simulate_runout_not_monotonic :
    (simulate_runout (some 10) [some 20, some 5]).getD 0 "" = "" ∧
    (simulate_runout (some 10) [some 20, some 5]).getD 1 "" = "✅" := by
  have h20 : ¬ (20 : ℚ) ≤ 10 := by norm_num
  have h5 : (5 : ℚ) ≤ 10 := by norm_num
  constructor
  · simp [simulate_runout, h20]
  · simp [simulate_runout, h20, h5]

/-- Claim C1, amended: the marking is per-period rather than monotonic —
every period is marked "✅" exactly when remaining stock and usage are both
present and the usage fits the remaining stock at that period, where only
covered periods decrement the stock; an uncovered period leaves the stock
unchanged and the scan continues, so later periods can be covered again. -/
theorem simulate_runout_marking (soh : Option ℚ) (us : List (Option ℚ)) :
    (simulate_runout soh us).length = us.length ∧
    ∀ i, i < us.length →
      (simulate_runout soh us).getD i "" =
        if covers (remBefore soh (us.take i)) (us.getD i none) then "✅" else "" :=
  ⟨simulate_runout_length us soh, fun i h => simulate_runout_getD us soh i h⟩

/-- Witness for the amended claim C1 at SOH 10, usages [20, 5], period 1. -/
theorem simulate_runout_marking_witness :
    (simulate_runout (some 10) [some 20, some 5]).getD 1 "" =
      if covers (remBefore (some 10) ([some 20, some 5].take 1))
        ([some 20, some 5].getD 1 none) then "✅" else "" :=
  (simulate_runout_marking (some 10) [some 20, some 5]).2 1 (by norm_num)

/-- Embedding of the loop of `estimate_runout`
(inventory_health_app.py, lines 99-108): walk the forecast cells in column
order carrying the running index; a missing usage is skipped (`continue`);
a missing remaining value propagates (NaN minus anything is NaN and
`NaN <= 0` is false in Python, so the loop never returns); a present usage
is subtracted and the current 0-based index is returned as a float once the
remainder drops to 0 or below. -/
def estimate_runout_go : Option ℚ → List (Option ℚ) → ℕ → Option ℚ
  | _, [], _ => none
  | rem, u :: rest, i =>
    match u with
    | none => estimate_runout_go rem rest (i + 1)
    | some v =>
      match rem with
      | none => estimate_runout_go none rest (i + 1)
      | some r =>
        if r - v ≤ 0 then some ((i : ℕ) : ℚ)
        else estimate_runout_go (some (r - v)) rest (i + 1)

/-- Embedding of the guard `row['SOH'] <= 0` of line 97: false when SOH is
NaN (Python comparison with NaN), otherwise the numeric comparison. -/
def nan_le_zero (x : Option ℚ) : Bool :=
  match x with
  | some v => decide (v ≤ 0)
  | none => false

/-- Embedding of `estimate_runout` (inventory_health_app.py, lines 96-108):
returns NaN (`none`) when there are no forecast columns or SOH is a number
at most 0; otherwise scans the forecast cells. -/
def estimate_runout (soh : Option ℚ) (us : List (Option ℚ)) : Option ℚ :=
  if us.isEmpty || nan_le_zero soh then none
  else estimate_runout_go soh us 0

/-- Remaining stock along the Runout Period scan, written from the
specification's words: start from the on-hand value and subtract each
present usage in column order, skipping absent usages. -/
def remSkip (s : ℚ) (us : List (Option ℚ)) : ℚ :=
  us.foldl (fun r u => match u with | none => r | some v => r - v) s

/-- With a missing remaining value the scan never returns an index. -/
theorem estimate_runout_go_none (us : List (Option ℚ)) :
    ∀ i, estimate_runout_go none us i = none := by
  induction us with
  | nil => intro i; rfl
  | cons u rest ih =>
    intro i
    cases u with
    | none => exact ih (i + 1)
    | some v => exact ih (i + 1)

/-- Characterization of a successful scan from a positive remainder: the
returned value is the starting index plus the offset `k` of the first
period whose present usage drives the skipping remainder to 0 or below,
and the remainder is still positive after every earlier period. -/
theorem estimate_runout_go_some (us : List (Option ℚ)) :
    ∀ (s : ℚ) (i0 : ℕ) (x : ℚ), 0 < s →
    estimate_runout_go (some s) us i0 = some x →
    ∃ k : ℕ, x = ((i0 + k : ℕ) : ℚ) ∧ k < us.length ∧ (us.getD k none).isSome ∧
      remSkip s (us.take (k + 1)) ≤ 0 ∧
      ∀ j < k, 0 < remSkip s (us.take (j + 1)) := by
  induction us with
  | nil =>
    intro s i0 x hs h
    exact Option.noConfusion h
  | cons u rest ih =>
    intro s i0 x hs h
    cases u with
    | none =>
      have h' : estimate_runout_go (some s) rest (i0 + 1) = some x := h
      obtain ⟨k, hx, hk, hsome, hle, hpos⟩ := ih s (i0 + 1) x hs h'
      refine ⟨k + 1, ?_, ?_, ?_, hle, ?_⟩
      · rw [hx]
        congr 1
        omega
      · simp only [List.length_cons]
        omega
      · exact hsome
      · intro j hj
        cases j with
        | zero => exact hs
        | succ j' => exact hpos j' (by omega)
    | some v =>
      by_cases hv : s - v ≤ 0
      · have h' : (if s - v ≤ 0 then some ((i0 : ℕ) : ℚ)
            else estimate_runout_go (some (s - v)) rest (i0 + 1)) = some x := h
        rw [if_pos hv] at h'
        have hx := Option.some_inj.mp h'
        refine ⟨0, ?_, by simp, rfl, hv, ?_⟩
        · rw [← hx]
          norm_num
        · intro j hj
          omega
      · have h' : (if s - v ≤ 0 then some ((i0 : ℕ) : ℚ)
            else estimate_runout_go (some (s - v)) rest (i0 + 1)) = some x := h
        rw [if_neg hv] at h'
        have hs' : 0 < s - v := by
          push_neg at hv
          exact hv
        obtain ⟨k, hx, hk, hsome, hle, hpos⟩ := ih (s - v) (i0 + 1) x hs' h'
        refine ⟨k + 1, ?_, ?_, ?_, hle, ?_⟩
        · rw [hx]
          congr 1
          omega
        · simp only [List.length_cons]
          omega
        · exact hsome
        · intro j hj
          cases j with
          | zero => exact hs'
          | succ j' => exact hpos j' (by omega)

/-- Absent SOH propagates to an absent runout period. -/
theorem estimate_runout_none_soh (us : List (Option ℚ)) :
    estimate_runout none us = none := by
  unfold estimate_runout
  split
  · rfl
  · exact estimate_runout_go_none us 0

/-- A present SOH at most 0 yields an absent runout period immediately. -/
theorem estimate_runout_nonpos (us : List (Option ℚ)) (s : ℚ) (hs : s ≤ 0) :
    estimate_runout (some s) us = none := by
  have hc : (us.isEmpty || nan_le_zero (some s)) = true := by
    have : nan_le_zero (some s) = true := by
      simp only [nan_le_zero, decide_eq_true_eq]
      exact hs
    rw [this, Bool.or_true]
  unfold estimate_runout
  rw [if_pos hc]

/-- With no forecast columns the runout period is absent. -/
theorem estimate_runout_nil (soh : Option ℚ) :
    estimate_runout soh [] = none := by
  have hc : (([] : List (Option ℚ)).isEmpty || nan_le_zero soh) = true := rfl
  unfold estimate_runout
  rw [if_pos hc]

/-- Claim C6: the Runout Period estimate is absent when on-hand is absent,
when on-hand is at most 0, or when there are no forecast columns; and
whenever it is present it equals the 0-indexed position `k` of the first
period whose present usage drives the running remainder (on-hand minus the
present usages so far, absent usages skipped) to 0 or below — in
particular it is a non-negative value at most the number of forecast
columns minus 1. -/
theorem estimate_runout_correct (soh : Option ℚ) (us : List (Option ℚ)) :
    (soh = none → estimate_runout soh us = none) ∧
    (∀ s, soh = some s → s ≤ 0 → estimate_runout soh us = none) ∧
    (us = [] → estimate_runout soh us = none) ∧
    (∀ r, estimate_runout soh us = some r →
      ∃ s k, soh = some s ∧ 0 < s ∧ r = ((k : ℕ) : ℚ) ∧ 0 ≤ r ∧
        r ≤ (us.length : ℚ) - 1 ∧ (us.getD k none).isSome ∧
        remSkip s (us.take (k + 1)) ≤ 0 ∧
        ∀ j < k, 0 < remSkip s (us.take (j + 1))) := by
  refine ⟨?_, ?_, ?_, ?_⟩
  · rintro rfl
    exact estimate_runout_none_soh us
  · rintro s rfl hs
    exact estimate_runout_nonpos us s hs
  · rintro rfl
    exact estimate_runout_nil soh
  · intro r h
    cases soh with
    | none =>
      rw [estimate_runout_none_soh us] at h
      exact Option.noConfusion h
    | some s =>
      by_cases hs : s ≤ 0
      · rw [estimate_runout_nonpos us s hs] at h
        exact Option.noConfusion h
      · have hgo : estimate_runout_go (some s) us 0 = some r := by
          unfold estimate_runout at h
          split at h
          · exact Option.noConfusion h
          · exact h
        obtain ⟨k, hx, hk, hsome, hle, hpos⟩ :=
          estimate_runout_go_some us s 0 r (not_le.mp hs) hgo
        have hxk : r = ((k : ℕ) : ℚ) := by simpa using hx
        refine ⟨s, k, rfl, not_le.mp hs, hxk, ?_, ?_, hsome, hle, hpos⟩
        · rw [hxk]
          exact Nat.cast_nonneg k
        · have hcast : ((k : ℕ) : ℚ) + 1 ≤ ((us.length : ℕ) : ℚ) := by
            exact_mod_cast Nat.succ_le_of_lt hk
          rw [hxk]
          linarith

/-- Witness for claim C6 at a row with absent SOH. -/
theorem estimate_runout_correct_witness :
    estimate_runout none [some 1] = none :=
  (estimate_runout_correct none [some 1]).1 rfl

/-- Indexing into a list of present cells yields the present element. -/
theorem getD_map_some (l : List ℚ) :
    ∀ i, i < l.length → (l.map some).getD i none = some (l.getD i 0) := by
  induction l with
  | nil => intro i h; exact absurd h (by simp)
  | cons a t ih =>
    intro i h
    cases i with
    | zero => rfl
    | succ k => exact ih k (by simp only [List.length_cons] at h; omega)

/-- Indexing into a prefix agrees with indexing into the full list. -/
theorem getD_take_eq (l : List ℚ) :
    ∀ (i j : ℕ), j < i → (l.take i).getD j 0 = l.getD j 0 := by
  induction l with
  | nil =>
    intro i j h
    cases i with
    | zero => omega
    | succ i' => rfl
  | cons a t ih =>
    intro i j h
    cases i with
    | zero => omega
    | succ i' =>
      cases j with
      | zero => rfl
      | succ j' => exact ih i' j' (by omega)

/-- When every usage in the list is strictly below the then-remaining
stock, the coverage state after the whole list is the on-hand value minus
the total usage, and stays present. -/
theorem remBefore_all_covered (l : List ℚ) :
    ∀ s : ℚ, (∀ j, j < l.length → l.getD j 0 < s - (l.take j).sum) →
    remBefore (some s) (l.map some) = some (s - l.sum) := by
  induction l with
  | nil =>
    intro s _
    show some s = some (s - ([] : List ℚ).sum)
    norm_num
  | cons a t ih =>
    intro s hb
    have ha : a < s := by
      have := hb 0 (by simp)
      simpa using this
    have hb' : ∀ j, j < t.length → t.getD j 0 < (s - a) - (t.take j).sum := by
      intro j hj
      have h2 := hb (j + 1) (by simp only [List.length_cons]; omega)
      simp only [List.getD_cons_succ, List.take_succ_cons, List.sum_cons] at h2
      linarith
    have hstep : remBefore (some s) ((a :: t).map some) =
        remBefore (some (s - a)) (t.map some) := by
      show remBefore (stepRem (some s) (some a)) (t.map some) = _
      have : stepRem (some s) (some a) = some (s - a) := by
        show (if a ≤ s then some (s - a) else some s) = some (s - a)
        rw [if_pos (le_of_lt ha)]
      rw [this]
    rw [hstep, ih (s - a) hb']
    simp only [List.sum_cons]
    congr 1
    ring

/-- A scan started at index `i0` on all-present usages returns `i0 + i`
when period `i` is the first whose usage reaches the remaining stock. -/
theorem estimate_runout_go_runs_out (l : List ℚ) :
    ∀ (s : ℚ) (i0 i : ℕ), i < l.length →
    (∀ j, j < i → l.getD j 0 < s - (l.take j).sum) →
    l.getD i 0 = s - (l.take i).sum →
    estimate_runout_go (some s) (l.map some) i0 = some ((i0 + i : ℕ) : ℚ) := by
  induction l with
  | nil => intro s i0 i hi _ _; exact absurd hi (by simp)
  | cons a t ih =>
    intro s i0 i hi hb he
    cases i with
    | zero =>
      have ha : a = s := by simpa using he
      show (if s - a ≤ 0 then some ((i0 : ℕ) : ℚ)
        else estimate_runout_go (some (s - a)) (t.map some) (i0 + 1)) =
          some ((i0 + 0 : ℕ) : ℚ)
      rw [if_pos (by rw [ha]; simp)]
      norm_num
    | succ k =>
      have ha : a < s := by simpa using hb 0 (Nat.succ_pos k)
      have hk : k < t.length := by simp only [List.length_cons] at hi; omega
      have hb' : ∀ j, j < k → t.getD j 0 < (s - a) - (t.take j).sum := by
        intro j hj
        have h2 := hb (j + 1) (by omega)
        simp only [List.getD_cons_succ, List.take_succ_cons, List.sum_cons] at h2
        linarith
      have he' : t.getD k 0 = (s - a) - (t.take k).sum := by
        simp only [List.getD_cons_succ, List.take_succ_cons, List.sum_cons] at he
        linarith
      show (if s - a ≤ 0 then some ((i0 : ℕ) : ℚ)
        else estimate_runout_go (some (s - a)) (t.map some) (i0 + 1)) =
          some ((i0 + (k + 1) : ℕ) : ℚ)
      rw [if_neg (by linarith)]
      rw [ih (s - a) (i0 + 1) k hk hb' he']
      rw [show i0 + 1 + k = i0 + (k + 1) from by omega]

/-- Claim C10: on exact exhaustion the two simulations disagree at the
boundary period — with a present positive on-hand and all-present usages,
if every period before `i` has usage strictly below the then-remaining
stock and the usage at period `i` equals the remaining stock exactly, then
`simulate_runout` marks period `i` covered (remaining ≥ usage) while
`estimate_runout` returns `i` as the runout period (the remainder becomes
0 ≤ 0 after the subtraction). -/
theorem boundary_disagreement (soh : ℚ) (us : List ℚ) (i : ℕ)
    (hs : 0 < soh) (hi : i < us.length)
    (hb : ∀ j, j < i → us.getD j 0 < soh - (us.take j).sum)
    (he : us.getD i 0 = soh - (us.take i).sum) :
    (simulate_runout (some soh) (us.map some)).getD i "" = "✅" ∧
    estimate_runout (some soh) (us.map some) = some ((i : ℕ) : ℚ) := by
  constructor
  · have hlen : i < (us.map some).length := by simpa using hi
    rw [simulate_runout_getD (us.map some) (some soh) i hlen]
    have htake : (us.map some).take i = (us.take i).map some :=
      (List.map_take some us i).symm
    have hblen : ∀ j, j < (us.take i).length →
        (us.take i).getD j 0 < soh - ((us.take i).take j).sum := by
      intro j hj
      have hj' : j < i := by
        rw [List.length_take] at hj
        omega
      rw [getD_take_eq us i j hj', List.take_take, min_eq_left (le_of_lt hj')]
      exact hb j hj'
    have hbefore : remBefore (some soh) ((us.map some).take i) =
        some (soh - (us.take i).sum) := by
      rw [htake]
      exact remBefore_all_covered (us.take i) soh hblen
    rw [hbefore, getD_map_some us i hi]
    have hcov : covers (some (soh - (us.take i).sum)) (some (us.getD i 0)) = true := by
      simp only [covers, decide_eq_true_eq]
      exact le_of_eq he
    exact if_pos hcov
  · have hcond : ((us.map some).isEmpty || nan_le_zero (some soh)) = false := by
      have h1 : (us.map some).isEmpty = false := by
        cases us with
        | nil => simp at hi
        | cons a t => rfl
      have h2 : nan_le_zero (some soh) = false := by
        simp only [nan_le_zero, decide_eq_false_iff_not, not_le]
        exact hs
      rw [h1, h2]
      rfl
    have hun : estimate_runout (some soh) (us.map some) =
        estimate_runout_go (some soh) (us.map some) 0 := by
      unfold estimate_runout
      rw [if_neg (by rw [hcond]; exact Bool.false_ne_true)]
    rw [hun]
    have := estimate_runout_go_runs_out us soh 0 i hi hb he
    simpa using this

/-- Witness for claim C10 at SOH 100 and usages [40, 40, 20]: periods 0 and
1 are strictly covered, period 2 uses exactly the remaining 20 — the
coverage simulation marks period 2 "✅" while the runout estimate
returns 2. -/
theorem boundary_disagreement_witness :
    (simulate_runout (some 100) ([(40 : ℚ), 40, 20].map some)).getD 2 "" = "✅" ∧
    estimate_runout (some 100) ([(40 : ℚ), 40, 20].map some) = some ((2 : ℕ) : ℚ) :=
  boundary_disagreement 100 [40, 40, 20] 2 (by norm_num) (by norm_num)
    (by
      intro j hj
      interval_cases j
      · norm_num
      · norm_num)
    (by norm_num)
